import Mathlib

/-
Verification of the blobscan blob-storage-manager specification.

The repository ships the test suite of `BlobStorageManager`
(`packages/blob-storage-manager/test/BlobStorageManager.test.ts`) and the
web statistics helpers (`apps/web/src/utils/stats.ts`).  The statistics
helpers are embedded directly from their source.  The manager itself is
not among the provided source files, so it is modelled from the
specification (sections 4.1 to 4.5) and from the error-message shapes
pinned by its test suite.
-/

namespace Blobscan

/-- Modelled from the spec: a blob is a versioned hash together with its
data; both are opaque to the manager (section 3 of the spec). -/
structure Blob where
  versionedHash : String
  data : String
deriving DecidableEq, Repr

/-- Modelled from the spec: the abstract backend contract of section 4.2.
`store versionedHash data` either returns the opaque reference under which
the blob can later be fetched or fails with a backend-specific error text;
`fetch reference` either returns the stored data or fails.  The backend is
registered in the manager under its name, so the name tag is carried by
the manager's mapping rather than repeated here. -/
structure Backend where
  store : String → String → Except String String
  fetch : String → Except String String

/-- Modelled from the spec: a `{storage, reference}` pair returned by a
successful store (section 3). -/
structure BlobReference where
  storage : String
  reference : String
deriving DecidableEq, Repr

/-- Modelled from the spec: a `{storage, reference}` descriptor given to
`getBlob` (section 3). -/
structure BlobReadDescriptor where
  storage : String
  reference : String
deriving DecidableEq, Repr

/-- Modelled from the spec: a per-backend store failure `{storage, cause}`
(section 3). -/
structure StoreError where
  storage : String
  cause : String
deriving DecidableEq, Repr

/-- Modelled from the spec: the aggregate returned by `storeBlob`
(section 3). -/
structure StoreResult where
  references : List BlobReference
  errors : List StoreError
deriving DecidableEq, Repr

/-- Modelled from the spec: a successful `getBlob` result
`{storage, data}` (section 4.4). -/
structure BlobResult where
  storage : String
  data : String
deriving DecidableEq, Repr

/-- Modelled from the spec: the error taxonomy of section 7, each carrying
the aggregate message pinned in section 6. -/
inductive ManagerError where
  | NoBackendsConfigured (msg : String)
  | SelectedBackendsUnavailable (msg : String)
  | AllReadsFailed (msg : String)
  | AllWritesFailed (msg : String)
deriving DecidableEq, Repr

/-- Modelled from the spec: the manager holds a mapping from backend name
to backend instance plus an opaque chain id (sections 2 and 3).  The
mapping is an association list keyed by the backend name. -/
structure BlobStorageManager where
  backends : List (String × Backend)
  chainId : Nat

/-- Modelled from the spec: manager construction (section 4.1).  Fails
with `NoBackendsConfigured` ("No blob storages provided") when the
backend mapping is empty; otherwise stores the mapping and chain id
verbatim. -/
def mkBlobStorageManager (backends : List (String × Backend)) (chainId : Nat) :
    Except ManagerError BlobStorageManager :=
  if backends.isEmpty then
    .error (.NoBackendsConfigured "No blob storages provided")
  else
    .ok ⟨backends, chainId⟩

/-- Modelled from the spec: `getStorage` lookup primitive (section 4.3). -/
def BlobStorageManager.getStorage (m : BlobStorageManager) (name : String) :
    Option Backend :=
  (m.backends.find? (fun p => p.1 == name)).map Prod.snd

/-- Modelled from the spec: one read attempt of `getBlob` (section 4.4).
A descriptor naming an unregistered backend cannot succeed and contributes
the error text "File not found"; otherwise the named backend's `fetch` is
invoked on the descriptor's reference. -/
def BlobStorageManager.attemptFetch (m : BlobStorageManager)
    (d : BlobReadDescriptor) : Except String String :=
  match m.getStorage d.storage with
  | none => .error "File not found"
  | some b => b.fetch d.reference

/-- Error text of a read attempt, as rendered into the aggregate
`AllReadsFailed` message. -/
def readErrText (m : BlobStorageManager) (d : BlobReadDescriptor) : String :=
  match m.attemptFetch d with
  | .error e => e
  | .ok _ => ""

/-- First successful outcome of a read fan-out.  The spec leaves the
choice among concurrent successes unspecified; this model resolves the
nondeterminism by taking the first success in descriptor order. -/
def firstSuccess : List (String × Except String String) → Option (String × String)
  | [] => none
  | (n, .ok data) :: _ => some (n, data)
  | (_, .error _) :: rest => firstSuccess rest

/-- Outcomes of the read fan-out, one per input descriptor, tagged with
the descriptor's backend name. -/
def readAttempts (m : BlobStorageManager) (descriptors : List BlobReadDescriptor) :
    List (String × Except String String) :=
  descriptors.map (fun d => (d.storage, m.attemptFetch d))

/-- Modelled from the spec: `getBlob` read fan-out (section 4.4).  Each
descriptor is attempted; the first success is returned as
`{storage, data}`; if every attempt fails, the call fails with
`AllReadsFailed` carrying the aggregate message of section 6. -/
def BlobStorageManager.getBlob (m : BlobStorageManager)
    (descriptors : List BlobReadDescriptor) : Except ManagerError BlobResult :=
  match firstSuccess (readAttempts m descriptors) with
  | some (n, data) => .ok ⟨n, data⟩
  | none => .error (.AllReadsFailed
      ("Failed to get blob from any of the storages: " ++
        String.intercalate ", "
          (descriptors.map (fun d => d.storage ++ " - " ++ readErrText m d))))

/-- Modelled from the spec: the effective target set of a `storeBlob`
call, as named backends: `selectedStorages` if given, else all registered
backends (section 4.5, step 1). -/
def effectiveTargetNames (m : BlobStorageManager)
    (selectedStorages : Option (List String)) : List String :=
  match selectedStorages with
  | some sel => sel
  | none => m.backends.map Prod.fst

/-- Modelled from the spec: the resolved target backends of a `storeBlob`
call (section 4.5, step 1). -/
def resolvedTargets (m : BlobStorageManager)
    (selectedStorages : Option (List String)) : List (String × Backend) :=
  match selectedStorages with
  | some sel => sel.filterMap (fun n => (m.getStorage n).map (fun b => (n, b)))
  | none => m.backends

/-- Results of the write fan-out, one per target, tagged with the
target's backend name. -/
def storeAttempts (blob : Blob) (targets : List (String × Backend)) :
    List (String × Except String String) :=
  targets.map (fun p => (p.1, p.2.store blob.versionedHash blob.data))

/-- References collected from the successful store attempts. -/
def successRefs (results : List (String × Except String String)) :
    List BlobReference :=
  results.filterMap (fun p =>
    match p.2 with
    | .ok r => some ⟨p.1, r⟩
    | .error _ => none)

/-- Structured errors collected from the failed store attempts. -/
def failureErrs (results : List (String × Except String String)) :
    List StoreError :=
  results.filterMap (fun p =>
    match p.2 with
    | .error e => some ⟨p.1, e⟩
    | .ok _ => none)

/-- Modelled from the spec: the write fan-out of `storeBlob`, steps 2 to 5
of section 4.5.  Returns the manager result together with the list of
backend names whose `store` was invoked. -/
def storeFanOut (blob : Blob) (targets : List (String × Backend)) :
    Except ManagerError StoreResult × List String :=
  let results := storeAttempts blob targets
  let references := successRefs results
  let errors := failureErrs results
  if references.isEmpty then
    (.error (.AllWritesFailed
      ("Failed to upload blob " ++ blob.versionedHash ++
        " to any of the storages: " ++ String.intercalate ", "
          (errors.map (fun e => e.storage ++ ": " ++ e.cause)))),
      targets.map Prod.fst)
  else
    (.ok ⟨references, errors⟩, targets.map Prod.fst)

/-- Modelled from the spec: `storeBlob` (section 4.5), instrumented with
the list of backend names whose `store` was invoked.  Pre-flight: when
`selectedStorages` is given and some of its names are unregistered, the
call fails with `SelectedBackendsUnavailable` listing the missing names
verbatim and no store is invoked.  Otherwise the write fan-out runs over
the resolved targets. -/
def BlobStorageManager.storeBlobWithLog (m : BlobStorageManager) (blob : Blob)
    (selectedStorages : Option (List String)) :
    Except ManagerError StoreResult × List String :=
  match selectedStorages with
  | some sel =>
    let missing := sel.filter (fun n => (m.getStorage n).isNone)
    if missing.isEmpty then
      storeFanOut blob (resolvedTargets m (some sel))
    else
      (.error (.SelectedBackendsUnavailable
        ("Some of the selected storages are not available: " ++
          String.intercalate ", " missing)), [])
  | none => storeFanOut blob (resolvedTargets m none)

/-- Modelled from the spec: `storeBlob` proper, the result component of
the instrumented fan-out. -/
def BlobStorageManager.storeBlob (m : BlobStorageManager) (blob : Blob)
    (selectedStorages : Option (List String)) : Except ManagerError StoreResult :=
  (m.storeBlobWithLog blob selectedStorages).1

/-- Fuel-driven floor of the base-2 logarithm of a natural number; with
fuel at least the input it computes the exact floor. -/
def log2Fuel : ℕ → ℕ → ℕ
  | 0, _ => 0
  | fuel + 1, n => if n ≥ 2 then log2Fuel fuel (n / 2) + 1 else 0

/-- Floor of the base-2 logarithm of a natural number, with enough fuel
to always be exact. -/
def nlog2 (n : ℕ) : ℕ := log2Fuel n n

/-- Floor of the base-2 logarithm of a rational, computed by scaling by
2^200 into the naturals.  Exact for every rational at least 2^(-200),
which covers the whole range of magnitudes arising from byte counts. -/
def ratFlog2 (q : ℚ) : ℤ :=
  (nlog2 (⌊q * 2 ^ 200⌋).toNat : ℤ) - 200

/-- Round a rational to an integer: to nearest, ties to even (the IEEE
754 default rounding attribute). -/
def rhe (x : ℚ) : ℤ :=
  if x - ⌊x⌋ < 1 / 2 then ⌊x⌋
  else if 1 / 2 < x - ⌊x⌋ then ⌊x⌋ + 1
  else if ⌊x⌋ % 2 = 0 then ⌊x⌋ else ⌊x⌋ + 1

/-- Round a positive rational to 53 significant binary digits, to
nearest, ties to even. -/
def roundPos (q : ℚ) : ℚ :=
  ((rhe (q * 2 ^ (52 - ratFlog2 q)) : ℤ) : ℚ) * 2 ^ (ratFlog2 q - 52)

/-- The rounding performed on every IEEE 754 binary64 (JavaScript
`number`) arithmetic result: round to 53 significant bits, to nearest,
ties to even.  The exponent range is unbounded, so this agrees with
binary64 on the whole normal range (magnitudes in [2^(-1022), 2^1024)),
which covers every value arising from the byte counts treated here;
overflow and subnormal behaviour are outside the modelled range. -/
def roundDouble (q : ℚ) : ℚ :=
  if 0 < q then roundPos q
  else if q < 0 then -roundPos (-q)
  else 0

/-- A JavaScript numeric argument of `bytesToKilobytes` in
`apps/web/src/utils/stats.ts`: either a `bigint` (an arbitrary-precision
integer) or a `number` (an IEEE 754 binary64 value, carried as its exact
rational value). -/
inductive JsNumeric where
  | bigint (b : ℤ)
  | num (q : ℚ)
deriving DecidableEq, Repr

/-- Embeds `bytesToKilobytes` of `apps/web/src/utils/stats.ts`: a
`bigint` argument is divided by `BigInt(1000)` with BigInt division
(truncation toward zero) and the integer quotient converted to a
`number` by `Number(...)`, which rounds it to binary64; a `number`
argument is divided by `1000` with binary64 division, which rounds the
exact quotient to binary64. -/
def bytesToKilobytes : JsNumeric → ℚ
  | .bigint b => roundDouble ((Int.tdiv b 1000 : ℤ) : ℚ)
  | .num q => roundDouble (q / 1000)

/-- A JavaScript `Date`, modelled by the string its `toISOString` method
renders ("YYYY-MM-DDTHH:mm:ss.sssZ"). -/
structure JsDate where
  iso : String
deriving DecidableEq, Repr

/-- The `toISOString` rendering of a date. -/
def JsDate.toISOString (d : JsDate) : String := d.iso

/-- Embeds `getDateFromDateTime` of `apps/web/src/utils/stats.ts`:
`date.toISOString().split("T")[0]`. -/
def getDateFromDateTime (date : JsDate) : String :=
  (date.toISOString.splitOn "T").headD ""

/-- One record of `DailyBlobStats` as consumed by `formatDailyBlobStats`. -/
structure SingleDailyBlobStats where
  day : JsDate
  totalBlobs : ℤ
  totalUniqueBlobs : ℤ
  totalBlobSize : JsNumeric
  avgBlobSize : ℚ

/-- Result type of `formatDailyBlobStats`. -/
structure FormattedDailyBlobStats where
  days : List String
  blobs : List ℤ
  uniqueBlobs : List ℤ
  blobSizes : List ℚ
  avgBlobSizes : List ℚ
deriving DecidableEq, Repr

/-- One record of `DailyBlockStats` as consumed by `formatDailyBlockStats`. -/
structure SingleDailyBlockStats where
  day : JsDate
  totalBlocks : ℤ

/-- Result type of `formatDailyBlockStats`. -/
structure FormattedDailyBlockStats where
  days : List String
  blocks : List ℤ
deriving DecidableEq, Repr

/-- One record of `DailyTransactionStats` as consumed by
`formatDailyTransactionStats`. -/
structure SingleDailyTransactionStats where
  day : JsDate
  totalTransactions : ℤ
  totalUniqueReceivers : ℤ
  totalUniqueSenders : ℤ

/-- Result type of `formatDailyTransactionStats`. -/
structure FormattedDailyTransactionStats where
  days : List String
  transactions : List ℤ
  uniqueReceivers : List ℤ
  uniqueSenders : List ℤ
deriving DecidableEq, Repr

/-- Embeds `formatDailyBlobStats` of `apps/web/src/utils/stats.ts`: a
`reduce` over the input pushing, per record, the date part of `day`,
`totalBlobs`, `totalUniqueBlobs`, `bytesToKilobytes totalBlobSize` and
`avgBlobSize` onto the accumulator's component arrays. -/
def formatDailyBlobStats (stats : List SingleDailyBlobStats) :
    FormattedDailyBlobStats :=
  stats.foldl
    (fun acc s =>
      { days := acc.days ++ [getDateFromDateTime s.day]
        blobs := acc.blobs ++ [s.totalBlobs]
        uniqueBlobs := acc.uniqueBlobs ++ [s.totalUniqueBlobs]
        blobSizes := acc.blobSizes ++ [bytesToKilobytes s.totalBlobSize]
        avgBlobSizes := acc.avgBlobSizes ++ [s.avgBlobSize] })
    ⟨[], [], [], [], []⟩

/-- Embeds `formatDailyBlockStats` of `apps/web/src/utils/stats.ts`. -/
def formatDailyBlockStats (stats : List SingleDailyBlockStats) :
    FormattedDailyBlockStats :=
  stats.foldl
    (fun acc s =>
      { days := acc.days ++ [getDateFromDateTime s.day]
        blocks := acc.blocks ++ [s.totalBlocks] })
    ⟨[], []⟩

/-- Embeds `formatDailyTransactionStats` of `apps/web/src/utils/stats.ts`. -/
def formatDailyTransactionStats (stats : List SingleDailyTransactionStats) :
    FormattedDailyTransactionStats :=
  stats.foldl
    (fun acc s =>
      { days := acc.days ++ [getDateFromDateTime s.day]
        transactions := acc.transactions ++ [s.totalTransactions]
        uniqueReceivers := acc.uniqueReceivers ++ [s.totalUniqueReceivers]
        uniqueSenders := acc.uniqueSenders ++ [s.totalUniqueSenders] })
    ⟨[], [], [], []⟩

/-! Helper lemmas about the model. -/

theorem filterMap_eq_map_of_forall {α β : Type} {l : List α} {f : α → Option β}
    {g : α → β} (h : ∀ a ∈ l, f a = some (g a)) : l.filterMap f = l.map g := by
  induction l with
  | nil => rfl
  | cons x xs ih =>
    have hx := h x (by simp)
    have ht : xs.filterMap f = xs.map g := ih (fun a ha => h a (by simp [ha]))
    simp [List.filterMap_cons, hx, ht]

theorem getStorage_mem (m : BlobStorageManager) {n : String} {b : Backend}
    (h : m.getStorage n = some b) : (n, b) ∈ m.backends := by
  unfold BlobStorageManager.getStorage at h
  cases hf : m.backends.find? (fun p => p.1 == n) with
  | none => rw [hf] at h; simp at h
  | some p =>
    rw [hf] at h
    rcases p with ⟨p1, p2⟩
    have hp1 : p1 = n := by simpa using List.find?_some hf
    have hp2 : p2 = b := by simpa using h
    subst hp1
    subst hp2
    exact List.mem_of_find?_eq_some hf

theorem firstSuccess_mem {l : List (String × Except String String)} {n : String}
    {data : String} (h : firstSuccess l = some (n, data)) :
    (n, Except.ok data) ∈ l := by
  induction l with
  | nil => simp [firstSuccess] at h
  | cons x xs ih =>
    rcases x with ⟨nm, ex⟩
    cases ex with
    | ok d =>
      simp only [firstSuccess, Option.some.injEq, Prod.mk.injEq] at h
      obtain ⟨h1, h2⟩ := h
      subst h1
      subst h2
      exact List.mem_cons_self _ _
    | error e =>
      simp only [firstSuccess] at h
      exact List.mem_cons_of_mem _ (ih h)

theorem firstSuccess_eq_none {l : List (String × Except String String)}
    (h : ∀ p ∈ l, ∃ e, p.2 = Except.error e) : firstSuccess l = none := by
  induction l with
  | nil => rfl
  | cons x xs ih =>
    rcases x with ⟨nm, ex⟩
    cases ex with
    | ok d =>
      obtain ⟨e, he⟩ := h (nm, Except.ok d) (by simp)
      simp at he
    | error e =>
      simp only [firstSuccess]
      exact ih (fun p hp => h p (by simp [hp]))

theorem mem_successRefs {results : List (String × Except String String)}
    {ref : BlobReference} :
    ref ∈ successRefs results ↔ (ref.storage, Except.ok ref.reference) ∈ results := by
  unfold successRefs
  rw [List.mem_filterMap]
  constructor
  · rintro ⟨⟨nm, ex⟩, hp, hf⟩
    cases ex with
    | ok r =>
      have hr : (⟨nm, r⟩ : BlobReference) = ref := by simpa using hf
      subst hr
      exact hp
    | error e => simp at hf
  · intro hmem
    exact ⟨(ref.storage, Except.ok ref.reference), hmem, rfl⟩

theorem mem_failureErrs {results : List (String × Except String String)}
    {err : StoreError} :
    err ∈ failureErrs results ↔ (err.storage, Except.error err.cause) ∈ results := by
  unfold failureErrs
  rw [List.mem_filterMap]
  constructor
  · rintro ⟨⟨nm, ex⟩, hp, hf⟩
    cases ex with
    | ok r => simp at hf
    | error e =>
      have hr : (⟨nm, e⟩ : StoreError) = err := by simpa using hf
      subst hr
      exact hp
  · intro hmem
    exact ⟨(err.storage, Except.error err.cause), hmem, rfl⟩

theorem successRefs_eq_nil {results : List (String × Except String String)} :
    successRefs results = [] ↔ ∀ p ∈ results, ∃ e, p.2 = Except.error e := by
  unfold successRefs
  rw [List.filterMap_eq_nil_iff]
  constructor
  · intro h p hp
    have hx := h p hp
    cases he : p.2 with
    | ok r => rw [he] at hx; simp at hx
    | error e => exact ⟨e, rfl⟩
  · intro h p hp
    obtain ⟨e, he⟩ := h p hp
    simp [he]

theorem failureErrs_of_all_error {results : List (String × Except String String)}
    {errOf : String → String}
    (h : ∀ p ∈ results, p.2 = Except.error (errOf p.1)) :
    failureErrs results = results.map (fun p => ⟨p.1, errOf p.1⟩) := by
  apply filterMap_eq_map_of_forall
  intro p hp
  simp [h p hp]

theorem mem_storeAttempts {blob : Blob} {targets : List (String × Backend)}
    {x : String × Except String String} :
    x ∈ storeAttempts blob targets ↔
      ∃ p ∈ targets, p.1 = x.1 ∧
        p.2.store blob.versionedHash blob.data = x.2 := by
  unfold storeAttempts
  rw [List.mem_map]
  constructor
  · rintro ⟨p, hp, rfl⟩
    exact ⟨p, hp, rfl, rfl⟩
  · rintro ⟨p, hp, h1, h2⟩
    exact ⟨p, hp, Prod.ext h1 h2⟩

theorem mem_resolvedTargets_some {m : BlobStorageManager} {sel : List String}
    {p : String × Backend} :
    p ∈ resolvedTargets m (some sel) ↔
      p.1 ∈ sel ∧ m.getStorage p.1 = some p.2 := by
  unfold resolvedTargets
  rw [List.mem_filterMap]
  constructor
  · rintro ⟨n, hn, hf⟩
    cases hs : m.getStorage n with
    | none => rw [hs] at hf; simp at hf
    | some b =>
      rw [hs] at hf
      have hb : (n, b) = p := by simpa using hf
      subst hb
      exact ⟨hn, hs⟩
  · rintro ⟨hn, hs⟩
    exact ⟨p.1, hn, by simp [hs]⟩

theorem resolvedTargets_name_mem {m : BlobStorageManager}
    {selectedStorages : Option (List String)} {p : String × Backend}
    (hp : p ∈ resolvedTargets m selectedStorages) :
    p.1 ∈ effectiveTargetNames m selectedStorages := by
  cases selectedStorages with
  | none =>
    simp only [resolvedTargets] at hp
    simp only [effectiveTargetNames]
    exact List.mem_map_of_mem Prod.fst hp
  | some sel =>
    simp only [effectiveTargetNames]
    exact (mem_resolvedTargets_some.mp hp).1

theorem resolvedTargets_functional {m : BlobStorageManager}
    {selectedStorages : Option (List String)}
    (hnodup : (m.backends.map Prod.fst).Nodup)
    {p q : String × Backend}
    (hp : p ∈ resolvedTargets m selectedStorages)
    (hq : q ∈ resolvedTargets m selectedStorages) (h : p.1 = q.1) : p = q := by
  cases selectedStorages with
  | none =>
    simp only [resolvedTargets] at hp hq
    exact List.inj_on_of_nodup_map hnodup hp hq h
  | some sel =>
    obtain ⟨_hp1, hp2⟩ := mem_resolvedTargets_some.mp hp
    obtain ⟨_hq1, hq2⟩ := mem_resolvedTargets_some.mp hq
    rw [h] at hp2
    rw [hq2] at hp2
    exact Prod.ext h (Option.some.inj hp2).symm

theorem storeFanOut_fst_ok {blob : Blob} {targets : List (String × Backend)}
    {r : StoreResult}
    (h : (storeFanOut blob targets).1 = .ok r) :
    r.references = successRefs (storeAttempts blob targets) ∧
    r.errors = failureErrs (storeAttempts blob targets) ∧
    r.references ≠ [] := by
  cases he : (successRefs (storeAttempts blob targets)).isEmpty with
  | true => simp [storeFanOut, he] at h
  | false =>
    simp only [storeFanOut, he, Bool.false_eq_true, if_false] at h
    have hr : (⟨successRefs (storeAttempts blob targets),
        failureErrs (storeAttempts blob targets)⟩ : StoreResult) = r := by
      simpa using h
    subst hr
    exact ⟨rfl, rfl, by simpa using (List.isEmpty_eq_false).mp he⟩

theorem storeFanOut_allFail {blob : Blob} {targets : List (String × Backend)}
    {errOf : String → String}
    (hfail : ∀ p ∈ targets,
      p.2.store blob.versionedHash blob.data = Except.error (errOf p.1)) :
    storeFanOut blob targets =
      (.error (.AllWritesFailed
        ("Failed to upload blob " ++ blob.versionedHash ++
          " to any of the storages: " ++ String.intercalate ", "
            (targets.map (fun p => p.1 ++ ": " ++ errOf p.1)))),
        targets.map Prod.fst) := by
  have hatt : ∀ p ∈ storeAttempts blob targets, p.2 = Except.error (errOf p.1) := by
    intro p hp
    obtain ⟨q, hq, h1, h2⟩ := mem_storeAttempts.mp hp
    rw [← h2, ← h1]
    exact hfail q hq
  have hrefs : successRefs (storeAttempts blob targets) = [] :=
    successRefs_eq_nil.mpr (fun p hp => ⟨errOf p.1, hatt p hp⟩)
  have herrs : failureErrs (storeAttempts blob targets) =
      (storeAttempts blob targets).map (fun p => ⟨p.1, errOf p.1⟩) :=
    failureErrs_of_all_error hatt
  simp only [storeFanOut, hrefs, herrs, List.isEmpty_nil, if_true]
  simp only [storeAttempts, List.map_map]
  rfl

/-! Concrete backends and managers used by the witnesses. -/

/-- A backend that stores under the versioned hash and echoes the
reference back on fetch. -/
def trivialBackend : Backend where
  store := fun hash _ => .ok hash
  fetch := fun reference => .ok reference

/-- A backend that stores under the versioned hash and always fetches the
fixed data payload "0xdata". -/
def echoBackend : Backend where
  store := fun hash _ => .ok hash
  fetch := fun _ => .ok "0xdata"

/-- A backend whose store and fetch always fail. -/
def failingBackend : Backend where
  store := fun _ _ => .error "Blob data not found"
  fetch := fun _ => .error "Blob data not found"

/-- A sample blob. -/
def sampleBlob : Blob := ⟨"0xhash", "0xdata"⟩

/-- A manager with only a SWARM backend. -/
def swarmOnlyManager : BlobStorageManager := ⟨[("SWARM", trivialBackend)], 7⟩

/-- A manager with only a POSTGRES backend that fetches "0xdata". -/
def postgresOnlyManager : BlobStorageManager := ⟨[("POSTGRES", echoBackend)], 7⟩

/-- A manager with only a POSTGRES backend that always fails. -/
def failingManager : BlobStorageManager := ⟨[("POSTGRES", failingBackend)], 7⟩

/-- A manager with a succeeding POSTGRES backend and a failing GOOGLE
backend. -/
def mixedManager : BlobStorageManager :=
  ⟨[("POSTGRES", echoBackend), ("GOOGLE", failingBackend)], 7⟩

/-! Claim theorems. -/

/-- Claim C7: constructing a manager with an empty backends mapping fails
with a `NoBackendsConfigured` error whose message is exactly
"No blob storages provided"; constructing it with a non-empty mapping
succeeds (storing the mapping and chain id verbatim). -/
theorem mkBlobStorageManager_spec (chainId : Nat) :
    mkBlobStorageManager [] chainId =
      .error (.NoBackendsConfigured "No blob storages provided") ∧
    ∀ backends : List (String × Backend), backends ≠ [] →
      mkBlobStorageManager backends chainId = .ok ⟨backends, chainId⟩ := by
  refine ⟨rfl, fun backends hne => ?_⟩
  have hf := List.isEmpty_eq_false.mpr hne
  simp [mkBlobStorageManager, hf]

/-- Witness for claim C7 at a concrete backend list and chain id. -/
theorem mkBlobStorageManager_spec_witness :
    ([("SWARM", trivialBackend)] : List (String × Backend)) ≠ [] ∧
    mkBlobStorageManager [("SWARM", trivialBackend)] 7 =
      .ok ⟨[("SWARM", trivialBackend)], 7⟩ := by
  have hne : ([("SWARM", trivialBackend)] : List (String × Backend)) ≠ [] := by
    simp
  exact ⟨hne, (mkBlobStorageManager_spec 7).2 _ hne⟩

/-- Claim C4: a `storeBlob` call whose `selectedStorages` contains at
least one name not registered in the manager fails with a
`SelectedBackendsUnavailable` error whose message is
"Some of the selected storages are not available: N1, N2, …", listing
exactly the missing names verbatim, and no backend's `store` is invoked
(the invocation log is empty). -/
theorem storeBlob_selectedBackendsUnavailable (m : BlobStorageManager)
    (blob : Blob) (sel : List String)
    (hmiss : sel.filter (fun n => (m.getStorage n).isNone) ≠ []) :
    m.storeBlobWithLog blob (some sel) =
      (.error (.SelectedBackendsUnavailable
        ("Some of the selected storages are not available: " ++
          String.intercalate ", "
            (sel.filter (fun n => (m.getStorage n).isNone)))), []) := by
  have hf : (sel.filter (fun n => (m.getStorage n).isNone)).isEmpty = false :=
    List.isEmpty_eq_false.mpr hmiss
  simp [BlobStorageManager.storeBlobWithLog, hf]

/-- Witness for claim C4: a single-backend manager asked to store to two
unregistered backends. -/
theorem storeBlob_selectedBackendsUnavailable_witness :
    (["POSTGRES", "GOOGLE"].filter
        (fun n => (swarmOnlyManager.getStorage n).isNone) ≠ []) ∧
    swarmOnlyManager.storeBlobWithLog sampleBlob (some ["POSTGRES", "GOOGLE"]) =
      (.error (.SelectedBackendsUnavailable
        "Some of the selected storages are not available: POSTGRES, GOOGLE"),
        []) := by
  have hmiss : ["POSTGRES", "GOOGLE"].filter
      (fun n => (swarmOnlyManager.getStorage n).isNone) ≠ [] := by decide
  refine ⟨hmiss, ?_⟩
  have h := storeBlob_selectedBackendsUnavailable swarmOnlyManager sampleBlob
    ["POSTGRES", "GOOGLE"] hmiss
  rw [h]
  rfl

/-- Claim C8: for a blob with versioned hash H and a manager whose
registered POSTGRES backend uses the hash as its reference,
`storeBlob (selectedStorages := [POSTGRES])` returns a result with
exactly one reference, whose storage is POSTGRES and whose reference
equals H, and no errors. -/
theorem storeBlob_selected_hash_reference (m : BlobStorageManager)
    (blob : Blob) (backend : Backend)
    (hlookup : m.getStorage "POSTGRES" = some backend)
    (hstore : backend.store blob.versionedHash blob.data =
      .ok blob.versionedHash) :
    m.storeBlob blob (some ["POSTGRES"]) =
      .ok ⟨[⟨"POSTGRES", blob.versionedHash⟩], []⟩ := by
  have hres : resolvedTargets m (some ["POSTGRES"]) = [("POSTGRES", backend)] := by
    simp [resolvedTargets, hlookup]
  have hmiss : ["POSTGRES"].filter (fun n => (m.getStorage n).isNone) = [] := by
    simp [hlookup]
  simp only [BlobStorageManager.storeBlob, BlobStorageManager.storeBlobWithLog,
    hmiss, List.isEmpty_nil, if_true, hres]
  simp [storeFanOut, storeAttempts, successRefs, failureErrs, hstore,
    List.filterMap_cons]

/-- Witness for claim C8 at a concrete manager and blob. -/
theorem storeBlob_selected_hash_reference_witness :
    postgresOnlyManager.getStorage "POSTGRES" = some echoBackend ∧
    echoBackend.store sampleBlob.versionedHash sampleBlob.data =
      .ok sampleBlob.versionedHash ∧
    postgresOnlyManager.storeBlob sampleBlob (some ["POSTGRES"]) =
      .ok ⟨[⟨"POSTGRES", "0xhash"⟩], []⟩ := by
  have h1 : postgresOnlyManager.getStorage "POSTGRES" = some echoBackend := rfl
  have h2 : echoBackend.store sampleBlob.versionedHash sampleBlob.data =
      .ok sampleBlob.versionedHash := rfl
  refine ⟨h1, h2, ?_⟩
  have h := storeBlob_selected_hash_reference postgresOnlyManager sampleBlob
    echoBackend h1 h2
  rw [h]
  rfl

/-- Claim C5: for a blob and a backend B registered in the manager and
satisfying the backend contract (a fetch of a reference returned by a
store of this blob yields the blob's data), if
`storeBlob (selectedStorages := [B])` succeeds yielding reference `ref`
for B, then `getBlob {storage := B, reference := ref}` returns
`{storage := B, data := blob.data}`. -/
theorem storeBlob_getBlob_roundTrip (m : BlobStorageManager) (blob : Blob)
    (B : String) (backend : Backend) (r : StoreResult) (ref : String)
    (hlookup : m.getStorage B = some backend)
    (hcontract : ∀ s, backend.store blob.versionedHash blob.data = .ok s →
      backend.fetch s = .ok blob.data)
    (hok : m.storeBlob blob (some [B]) = .ok r)
    (href : (⟨B, ref⟩ : BlobReference) ∈ r.references) :
    m.getBlob [⟨B, ref⟩] = .ok ⟨B, blob.data⟩ := by
  have hmiss : [B].filter (fun n => (m.getStorage n).isNone) = [] := by
    simp [hlookup]
  have hfan : (storeFanOut blob (resolvedTargets m (some [B]))).1 = .ok r := by
    simpa only [BlobStorageManager.storeBlob, BlobStorageManager.storeBlobWithLog,
      hmiss, List.isEmpty_nil, if_true] using hok
  obtain ⟨h1, _h2, _h3⟩ := storeFanOut_fst_ok hfan
  rw [h1] at href
  have hmem := mem_successRefs.mp href
  obtain ⟨p, hp, hp1, hp2⟩ := mem_storeAttempts.mp hmem
  obtain ⟨_hpB, hps⟩ := mem_resolvedTargets_some.mp hp
  have hpb : p.2 = backend := by
    rw [hp1] at hps
    exact Option.some.inj (hps.symm.trans hlookup)
  have hstore : backend.store blob.versionedHash blob.data = .ok ref := by
    rw [← hpb]
    exact hp2
  have hfetch := hcontract ref hstore
  have hat : m.attemptFetch ⟨B, ref⟩ = .ok blob.data := by
    simp [BlobStorageManager.attemptFetch, hlookup, hfetch]
  simp [BlobStorageManager.getBlob, readAttempts, hat, firstSuccess]

/-- Witness for claim C5 at a concrete manager and blob. -/
theorem storeBlob_getBlob_roundTrip_witness :
    postgresOnlyManager.storeBlob sampleBlob (some ["POSTGRES"]) =
      .ok ⟨[⟨"POSTGRES", "0xhash"⟩], []⟩ ∧
    (⟨"POSTGRES", "0xhash"⟩ : BlobReference) ∈
      [(⟨"POSTGRES", "0xhash"⟩ : BlobReference)] ∧
    postgresOnlyManager.getBlob [⟨"POSTGRES", "0xhash"⟩] =
      .ok ⟨"POSTGRES", "0xdata"⟩ := by
  have hok : postgresOnlyManager.storeBlob sampleBlob (some ["POSTGRES"]) =
      .ok ⟨[⟨"POSTGRES", "0xhash"⟩], []⟩ := rfl
  have href : (⟨"POSTGRES", "0xhash"⟩ : BlobReference) ∈
      [(⟨"POSTGRES", "0xhash"⟩ : BlobReference)] := by simp
  refine ⟨hok, href, ?_⟩
  exact storeBlob_getBlob_roundTrip postgresOnlyManager sampleBlob "POSTGRES"
    echoBackend ⟨[⟨"POSTGRES", "0xhash"⟩], []⟩ "0xhash" rfl
    (fun s _ => rfl) hok href

/-- Claim C1: every non-failing `storeBlob` call returns a result with a
non-empty `references` list; every entry of `references` and of `errors`
names a backend in the effective target set (`selectedStorages` if given,
else all registered backends); and no backend name appears in both lists.
The manager's backend mapping has unique keys (it models a keyed object). -/
theorem storeBlob_result_invariants (m : BlobStorageManager) (blob : Blob)
    (selectedStorages : Option (List String)) (r : StoreResult)
    (hnodup : (m.backends.map Prod.fst).Nodup)
    (hok : m.storeBlob blob selectedStorages = .ok r) :
    r.references ≠ [] ∧
    (∀ ref ∈ r.references,
      ref.storage ∈ effectiveTargetNames m selectedStorages) ∧
    (∀ err ∈ r.errors,
      err.storage ∈ effectiveTargetNames m selectedStorages) ∧
    (∀ ref ∈ r.references, ∀ err ∈ r.errors, ref.storage ≠ err.storage) := by
  have hfan : (storeFanOut blob (resolvedTargets m selectedStorages)).1 = .ok r := by
    cases selectedStorages with
    | none => exact hok
    | some sel =>
      simp only [BlobStorageManager.storeBlob,
        BlobStorageManager.storeBlobWithLog] at hok
      cases he : (sel.filter (fun n => (m.getStorage n).isNone)).isEmpty with
      | true => simpa only [he, if_true] using hok
      | false => simp [he] at hok
  obtain ⟨h1, h2, h3⟩ := storeFanOut_fst_ok hfan
  refine ⟨h3, ?_, ?_, ?_⟩
  · intro ref href
    rw [h1] at href
    obtain ⟨p, hp, hp1, _hp2⟩ := mem_storeAttempts.mp (mem_successRefs.mp href)
    have hps : p.1 = ref.storage := hp1
    rw [← hps]
    exact resolvedTargets_name_mem hp
  · intro err herr
    rw [h2] at herr
    obtain ⟨p, hp, hp1, _hp2⟩ := mem_storeAttempts.mp (mem_failureErrs.mp herr)
    have hps : p.1 = err.storage := hp1
    rw [← hps]
    exact resolvedTargets_name_mem hp
  · intro ref href err herr heq
    rw [h1] at href
    rw [h2] at herr
    obtain ⟨p, hp, hp1, hp2⟩ := mem_storeAttempts.mp (mem_successRefs.mp href)
    obtain ⟨q, hq, hq1, hq2⟩ := mem_storeAttempts.mp (mem_failureErrs.mp herr)
    have hps : p.1 = ref.storage := hp1
    have hqs : q.1 = err.storage := hq1
    have hpo : p.2.store blob.versionedHash blob.data =
        Except.ok ref.reference := hp2
    have hqe : q.2.store blob.versionedHash blob.data =
        Except.error err.cause := hq2
    have hpq : p = q := resolvedTargets_functional hnodup hp hq
      (by rw [hps, hqs, heq])
    rw [hpq] at hpo
    rw [hpo] at hqe
    simp at hqe

/-- Witness for claim C1: a two-backend manager where one store succeeds
and the other fails. -/
theorem storeBlob_result_invariants_witness :
    (mixedManager.backends.map Prod.fst).Nodup ∧
    mixedManager.storeBlob sampleBlob none =
      .ok ⟨[⟨"POSTGRES", "0xhash"⟩], [⟨"GOOGLE", "Blob data not found"⟩]⟩ ∧
    (([⟨"POSTGRES", "0xhash"⟩] : List BlobReference) ≠ [] ∧
     (∀ ref ∈ ([⟨"POSTGRES", "0xhash"⟩] : List BlobReference),
       ref.storage ∈ effectiveTargetNames mixedManager none) ∧
     (∀ err ∈ ([⟨"GOOGLE", "Blob data not found"⟩] : List StoreError),
       err.storage ∈ effectiveTargetNames mixedManager none) ∧
     (∀ ref ∈ ([⟨"POSTGRES", "0xhash"⟩] : List BlobReference),
       ∀ err ∈ ([⟨"GOOGLE", "Blob data not found"⟩] : List StoreError),
         ref.storage ≠ err.storage)) := by
  have hnodup : (mixedManager.backends.map Prod.fst).Nodup := by decide
  have hok : mixedManager.storeBlob sampleBlob none =
      .ok ⟨[⟨"POSTGRES", "0xhash"⟩], [⟨"GOOGLE", "Blob data not found"⟩]⟩ := rfl
  exact ⟨hnodup, hok,
    storeBlob_result_invariants mixedManager sampleBlob none
      ⟨[⟨"POSTGRES", "0xhash"⟩], [⟨"GOOGLE", "Blob data not found"⟩]⟩
      hnodup hok⟩

/-- Claim C2: when the pre-flight check passes and the store attempt
fails on every target backend, `storeBlob` fails with an `AllWritesFailed`
error whose message is exactly
"Failed to upload blob <versionedHash> to any of the storages: NAME1:
<err1>, NAME2: <err2>, …", containing each attempted backend's name with
its own error text; no partial `StoreResult` is returned. -/
theorem storeBlob_allWritesFailed (m : BlobStorageManager) (blob : Blob)
    (selectedStorages : Option (List String)) (errOf : String → String)
    (hpre : ∀ sel, selectedStorages = some sel →
      sel.filter (fun n => (m.getStorage n).isNone) = [])
    (hfail : ∀ p ∈ resolvedTargets m selectedStorages,
      p.2.store blob.versionedHash blob.data = Except.error (errOf p.1)) :
    m.storeBlob blob selectedStorages = .error (.AllWritesFailed
      ("Failed to upload blob " ++ blob.versionedHash ++
        " to any of the storages: " ++ String.intercalate ", "
          ((resolvedTargets m selectedStorages).map
            (fun p => p.1 ++ ": " ++ errOf p.1)))) := by
  have hfan := storeFanOut_allFail hfail
  cases selectedStorages with
  | none =>
    simp only [BlobStorageManager.storeBlob,
      BlobStorageManager.storeBlobWithLog, hfan]
  | some sel =>
    have hm := hpre sel rfl
    simp only [BlobStorageManager.storeBlob,
      BlobStorageManager.storeBlobWithLog, hm, List.isEmpty_nil, if_true, hfan]

/-- Witness for claim C2: a single failing backend with no selection. -/
theorem storeBlob_allWritesFailed_witness :
    (∀ p ∈ resolvedTargets failingManager none,
      p.2.store sampleBlob.versionedHash sampleBlob.data =
        Except.error "Blob data not found") ∧
    failingManager.storeBlob sampleBlob none = .error (.AllWritesFailed
      "Failed to upload blob 0xhash to any of the storages: POSTGRES: Blob data not found") := by
  have hfail : ∀ p ∈ resolvedTargets failingManager none,
      p.2.store sampleBlob.versionedHash sampleBlob.data =
        Except.error "Blob data not found" := by
    intro p hp
    simp only [resolvedTargets, failingManager, List.mem_singleton] at hp
    subst hp
    rfl
  refine ⟨hfail, ?_⟩
  have h := storeBlob_allWritesFailed failingManager sampleBlob none
    (fun _ => "Blob data not found") (fun sel hsel => by cases hsel) hfail
  rw [h]
  rfl

/-- Claim C3: a `getBlob` call in which every fetch attempt fails (which
includes every descriptor naming an unregistered backend) fails with an
`AllReadsFailed` error whose message is
"Failed to get blob from any of the storages: NAME1 - <err1>, NAME2 -
<err2>, …", listing each input descriptor's backend name with that
backend's error text, where the error text of a descriptor naming an
unregistered backend is "File not found". -/
theorem getBlob_allReadsFailed (m : BlobStorageManager)
    (descriptors : List BlobReadDescriptor)
    (hfail : ∀ d ∈ descriptors, (m.attemptFetch d).isOk = false) :
    m.getBlob descriptors = .error (.AllReadsFailed
      ("Failed to get blob from any of the storages: " ++
        String.intercalate ", "
          (descriptors.map (fun d => d.storage ++ " - " ++ readErrText m d)))) ∧
    ∀ d ∈ descriptors, m.getStorage d.storage = none →
      readErrText m d = "File not found" := by
  constructor
  · have hnone : firstSuccess (readAttempts m descriptors) = none := by
      apply firstSuccess_eq_none
      intro p hp
      simp only [readAttempts, List.mem_map] at hp
      obtain ⟨d, hd, hde⟩ := hp
      rw [← hde]
      cases hx : m.attemptFetch d with
      | ok data =>
        have := hfail d hd
        rw [hx] at this
        simp [Except.isOk, Except.toBool] at this
      | error e => exact ⟨e, rfl⟩
    simp only [BlobStorageManager.getBlob, hnone]
  · intro d _hd hnone
    simp [readErrText, BlobStorageManager.attemptFetch, hnone]

/-- Witness for claim C3: a failing registered backend plus a descriptor
naming an unregistered backend. -/
theorem getBlob_allReadsFailed_witness :
    (∀ d ∈ [(⟨"POSTGRES", "0xhash"⟩ : BlobReadDescriptor),
        ⟨"GOOGLE", "some/uri"⟩],
      (failingManager.attemptFetch d).isOk = false) ∧
    failingManager.getBlob [⟨"POSTGRES", "0xhash"⟩, ⟨"GOOGLE", "some/uri"⟩] =
      .error (.AllReadsFailed
        "Failed to get blob from any of the storages: POSTGRES - Blob data not found, GOOGLE - File not found") ∧
    readErrText failingManager ⟨"GOOGLE", "some/uri"⟩ = "File not found" := by
  have hfail : ∀ d ∈ [(⟨"POSTGRES", "0xhash"⟩ : BlobReadDescriptor),
      ⟨"GOOGLE", "some/uri"⟩],
      (failingManager.attemptFetch d).isOk = false := by
    intro d hd
    simp only [List.mem_cons, List.mem_singleton, List.not_mem_nil,
      or_false] at hd
    rcases hd with hd | hd
    · subst hd; rfl
    · subst hd; rfl
  obtain ⟨h1, h2⟩ := getBlob_allReadsFailed failingManager
    [⟨"POSTGRES", "0xhash"⟩, ⟨"GOOGLE", "some/uri"⟩] hfail
  refine ⟨hfail, ?_, h2 ⟨"GOOGLE", "some/uri"⟩ (by simp) rfl⟩
  rw [h1]
  rfl

/-- Claim C6: every successful `getBlob` call returns `{storage, data}`
where `storage` names one of the input descriptors whose fetch succeeded
and `data` is exactly what that backend returned for that descriptor's
reference. -/
theorem getBlob_success_provenance (m : BlobStorageManager)
    (descriptors : List BlobReadDescriptor) (res : BlobResult)
    (hok : m.getBlob descriptors = .ok res) :
    ∃ d ∈ descriptors, d.storage = res.storage ∧
      ∃ b, m.getStorage d.storage = some b ∧
        b.fetch d.reference = .ok res.data := by
  unfold BlobStorageManager.getBlob at hok
  cases hfs : firstSuccess (readAttempts m descriptors) with
  | none => rw [hfs] at hok; simp at hok
  | some p =>
    rcases p with ⟨n, data⟩
    rw [hfs] at hok
    simp only [Except.ok.injEq] at hok
    have hmem := firstSuccess_mem hfs
    simp only [readAttempts, List.mem_map] at hmem
    obtain ⟨d, hd, hde⟩ := hmem
    have hds : d.storage = n := congrArg Prod.fst hde
    have hdf : m.attemptFetch d = Except.ok data := congrArg Prod.snd hde
    refine ⟨d, hd, ?_, ?_⟩
    · rw [hds, ← hok]
    · unfold BlobStorageManager.attemptFetch at hdf
      cases hs : m.getStorage d.storage with
      | none => simp [hs] at hdf
      | some b =>
        simp only [hs] at hdf
        refine ⟨b, rfl, ?_⟩
        rw [← hok]
        exact hdf

/-- Witness for claim C6 at a concrete manager and descriptor list. -/
theorem getBlob_success_provenance_witness :
    postgresOnlyManager.getBlob [⟨"POSTGRES", "0xhash"⟩] =
      .ok ⟨"POSTGRES", "0xdata"⟩ ∧
    ∃ d ∈ [(⟨"POSTGRES", "0xhash"⟩ : BlobReadDescriptor)],
      d.storage = "POSTGRES" ∧
      ∃ b, postgresOnlyManager.getStorage d.storage = some b ∧
        b.fetch d.reference = .ok "0xdata" := by
  have hok : postgresOnlyManager.getBlob [⟨"POSTGRES", "0xhash"⟩] =
      .ok ⟨"POSTGRES", "0xdata"⟩ := rfl
  exact ⟨hok, getBlob_success_provenance postgresOnlyManager
    [⟨"POSTGRES", "0xhash"⟩] ⟨"POSTGRES", "0xdata"⟩ hok⟩

/-! Correctness lemmas for the binary64 rounding model. -/

theorem log2Fuel_spec : ∀ fuel n : ℕ, 1 ≤ n → n ≤ fuel →
    2 ^ log2Fuel fuel n ≤ n ∧ n < 2 ^ (log2Fuel fuel n + 1) := by
  intro fuel
  induction fuel with
  | zero => intro n h1 h2; omega
  | succ fuel ih =>
    intro n h1 h2
    simp only [log2Fuel]
    split
    · next hge =>
      have hm1 : 1 ≤ n / 2 := by omega
      have hm2 : n / 2 ≤ fuel := by omega
      obtain ⟨ha, hb⟩ := ih (n / 2) hm1 hm2
      constructor
      · calc 2 ^ (log2Fuel fuel (n / 2) + 1)
            = 2 ^ log2Fuel fuel (n / 2) * 2 := by rw [pow_succ]
          _ ≤ n / 2 * 2 := Nat.mul_le_mul_right 2 ha
          _ ≤ n := by omega
      · calc n < (n / 2 + 1) * 2 := by omega
          _ ≤ 2 ^ (log2Fuel fuel (n / 2) + 1) * 2 := Nat.mul_le_mul_right 2 hb
          _ = 2 ^ (log2Fuel fuel (n / 2) + 1 + 1) := (pow_succ 2 _).symm
    · next hge =>
      have hn : n = 1 := by omega
      subst hn
      simp

theorem nlog2_spec (n : ℕ) (h1 : 1 ≤ n) :
    2 ^ nlog2 n ≤ n ∧ n < 2 ^ (nlog2 n + 1) :=
  log2Fuel_spec n n h1 le_rfl

theorem rhe_intCast (z : ℤ) : rhe ((z : ℤ) : ℚ) = z := by
  unfold rhe
  rw [Int.floor_intCast]
  norm_num

theorem rhe_abs (x : ℚ) : |(rhe x : ℚ) - x| ≤ 1 / 2 := by
  have h0 : (⌊x⌋ : ℚ) ≤ x := Int.floor_le x
  have h1 : x < ⌊x⌋ + 1 := Int.lt_floor_add_one x
  unfold rhe
  split
  · next h =>
    rw [abs_le]
    constructor <;> linarith
  · next h =>
    rw [not_lt] at h
    split
    · next h2 =>
      rw [abs_le]
      push_cast
      constructor <;> linarith
    · next h2 =>
      rw [not_lt] at h2
      split <;> (rw [abs_le]; push_cast; constructor <;> linarith)

theorem rhe_eq_succ_of {x : ℚ} {F : ℤ} (hfl : ⌊x⌋ = F)
    (hgt : 1 / 2 < x - (F : ℚ)) : rhe x = F + 1 := by
  unfold rhe
  rw [hfl]
  rw [if_neg (by linarith), if_pos hgt]

theorem ratFlog2_eval {q : ℚ} {M L : ℕ} (hfl : ⌊q * 2 ^ 200⌋ = (M : ℤ))
    (hlog : nlog2 M = L) : ratFlog2 q = (L : ℤ) - 200 := by
  rw [ratFlog2, hfl, Int.toNat_natCast, hlog]

theorem zpow_shift200 (N : ℕ) :
    (2 : ℚ) ^ ((N : ℤ) - 200) * 2 ^ (200 : ℕ) = ((2 ^ N : ℕ) : ℚ) := by
  have h1 : ((2 ^ N : ℕ) : ℚ) = (2 : ℚ) ^ ((N : ℕ) : ℤ) := by
    rw [zpow_natCast]
    push_cast
    ring
  rw [h1, ← zpow_natCast (2 : ℚ) 200,
    ← zpow_add₀ (by norm_num : (2 : ℚ) ≠ 0)]
  congr 1
  push_cast
  ring

theorem ratFlog2_spec {q : ℚ} (hq : (2 : ℚ) ^ (-200 : ℤ) ≤ q) :
    (2 : ℚ) ^ ratFlog2 q ≤ q ∧ q < (2 : ℚ) ^ (ratFlog2 q + 1) := by
  have hscale : (1 : ℚ) ≤ q * 2 ^ 200 := by
    have h2 : (2 : ℚ) ^ (-200 : ℤ) * 2 ^ (200 : ℕ) = 1 := by
      rw [← zpow_natCast (2 : ℚ) 200,
        ← zpow_add₀ (by norm_num : (2 : ℚ) ≠ 0)]
      norm_num
    calc (1 : ℚ) = 2 ^ (-200 : ℤ) * 2 ^ (200 : ℕ) := h2.symm
      _ ≤ q * 2 ^ (200 : ℕ) :=
        mul_le_mul_of_nonneg_right hq (by positivity)
  have hMq : ((⌊q * 2 ^ 200⌋ : ℤ) : ℚ) ≤ q * 2 ^ 200 := Int.floor_le _
  have hqM : q * 2 ^ 200 < ⌊q * 2 ^ 200⌋ + 1 := Int.lt_floor_add_one _
  have hM1 : 1 ≤ ⌊q * 2 ^ 200⌋ := Int.le_floor.mpr (by exact_mod_cast hscale)
  have htn : ((⌊q * 2 ^ 200⌋).toNat : ℤ) = ⌊q * 2 ^ 200⌋ :=
    Int.toNat_of_nonneg (by omega)
  have hpos : 1 ≤ (⌊q * 2 ^ 200⌋).toNat := by omega
  obtain ⟨hlo, hhi⟩ := nlog2_spec (⌊q * 2 ^ 200⌋).toNat hpos
  have hrf : ratFlog2 q = (nlog2 (⌊q * 2 ^ 200⌋).toNat : ℤ) - 200 := rfl
  have hp200 : (0 : ℚ) < 2 ^ (200 : ℕ) := by positivity
  have hcast_lo : ((2 ^ nlog2 (⌊q * 2 ^ 200⌋).toNat : ℕ) : ℚ) ≤
      q * 2 ^ 200 := by
    calc ((2 ^ nlog2 (⌊q * 2 ^ 200⌋).toNat : ℕ) : ℚ)
        ≤ (((⌊q * 2 ^ 200⌋).toNat : ℕ) : ℚ) := by exact_mod_cast hlo
      _ = ((⌊q * 2 ^ 200⌋ : ℤ) : ℚ) := by exact_mod_cast htn
      _ ≤ q * 2 ^ 200 := hMq
  have hcast_hi : q * 2 ^ 200 <
      ((2 ^ (nlog2 (⌊q * 2 ^ 200⌋).toNat + 1) : ℕ) : ℚ) := by
    have hstep : ⌊q * 2 ^ 200⌋ + 1 ≤
        ((2 ^ (nlog2 (⌊q * 2 ^ 200⌋).toNat + 1) : ℕ) : ℤ) := by
      omega
    calc q * 2 ^ 200 < ((⌊q * 2 ^ 200⌋ : ℤ) : ℚ) + 1 := hqM
      _ ≤ ((2 ^ (nlog2 (⌊q * 2 ^ 200⌋).toNat + 1) : ℕ) : ℚ) := by
          exact_mod_cast hstep
  constructor
  · rw [hrf, ← mul_le_mul_right hp200, zpow_shift200]
    exact hcast_lo
  · rw [hrf, show (nlog2 (⌊q * 2 ^ 200⌋).toNat : ℤ) - 200 + 1 =
      ((nlog2 (⌊q * 2 ^ 200⌋).toNat + 1 : ℕ) : ℤ) - 200 by push_cast; ring,
      ← mul_lt_mul_right hp200, zpow_shift200]
    exact hcast_hi

theorem roundPos_err (q : ℚ) :
    |roundPos q - q| ≤ (2 : ℚ) ^ (ratFlog2 q - 53) := by
  have h2 : (0 : ℚ) < 2 ^ (ratFlog2 q - 52 : ℤ) := by positivity
  have hq' : q = q * 2 ^ (52 - ratFlog2 q : ℤ) * 2 ^ (ratFlog2 q - 52 : ℤ) := by
    rw [mul_assoc, ← zpow_add₀ (by norm_num : (2 : ℚ) ≠ 0),
      show (52 - ratFlog2 q) + (ratFlog2 q - 52) = 0 by ring, zpow_zero,
      mul_one]
  have key : roundPos q - q =
      (((rhe (q * 2 ^ (52 - ratFlog2 q)) : ℤ) : ℚ) -
        q * 2 ^ (52 - ratFlog2 q)) * 2 ^ (ratFlog2 q - 52) := by
    rw [sub_mul, roundPos, ← hq']
  rw [key, abs_mul, abs_of_pos h2]
  have hb := rhe_abs (q * 2 ^ (52 - ratFlog2 q))
  calc |((rhe (q * 2 ^ (52 - ratFlog2 q)) : ℤ) : ℚ) -
        q * 2 ^ (52 - ratFlog2 q)| * 2 ^ (ratFlog2 q - 52)
      ≤ 1 / 2 * 2 ^ (ratFlog2 q - 52) :=
        mul_le_mul_of_nonneg_right hb h2.le
    _ = 2 ^ (ratFlog2 q - 53) := by
        rw [show (ratFlog2 q - 53 : ℤ) = (-1) + (ratFlog2 q - 52) by ring,
          zpow_add₀ (by norm_num : (2 : ℚ) ≠ 0)]
        norm_num

theorem roundPos_natCast {m : ℕ} (h1 : 1 ≤ m) (h2 : m < 2 ^ 53) :
    roundPos (m : ℚ) = m := by
  have hqlow : (2 : ℚ) ^ (-200 : ℤ) ≤ (m : ℚ) := by
    calc (2 : ℚ) ^ (-200 : ℤ) ≤ 1 := by norm_num
      _ ≤ (m : ℚ) := by exact_mod_cast h1
  obtain ⟨hlow, hhigh⟩ := ratFlog2_spec hqlow
  have he0 : 0 ≤ ratFlog2 (m : ℚ) := by
    by_contra hc
    push_neg at hc
    have hle : (2 : ℚ) ^ (ratFlog2 (m : ℚ) + 1) ≤ 2 ^ (0 : ℤ) :=
      zpow_le_zpow_right₀ (by norm_num) (by omega)
    rw [zpow_zero] at hle
    have hm : (1 : ℚ) ≤ (m : ℚ) := by exact_mod_cast h1
    linarith
  have he52 : ratFlog2 (m : ℚ) ≤ 52 := by
    by_contra hc
    push_neg at hc
    have hge : (2 : ℚ) ^ (53 : ℤ) ≤ 2 ^ ratFlog2 (m : ℚ) :=
      zpow_le_zpow_right₀ (by norm_num) (by omega)
    have hm2 : (m : ℚ) < (2 : ℚ) ^ (53 : ℤ) := by
      calc (m : ℚ) < ((2 ^ 53 : ℕ) : ℚ) := by exact_mod_cast h2
        _ = (2 : ℚ) ^ (53 : ℤ) := by norm_num
    linarith
  obtain ⟨k, hk⟩ : ∃ k : ℕ, (k : ℤ) = 52 - ratFlog2 (m : ℚ) :=
    ⟨(52 - ratFlog2 (m : ℚ)).toNat, Int.toNat_of_nonneg (by omega)⟩
  have hs : (m : ℚ) * 2 ^ (52 - ratFlog2 (m : ℚ) : ℤ) =
      ((m * 2 ^ k : ℕ) : ℚ) := by
    rw [← hk, zpow_natCast]
    push_cast
    ring
  have hrhe : rhe ((m : ℚ) * 2 ^ (52 - ratFlog2 (m : ℚ) : ℤ)) =
      ((m * 2 ^ k : ℕ) : ℤ) := by
    rw [hs, show ((m * 2 ^ k : ℕ) : ℚ) = (((m * 2 ^ k : ℕ) : ℤ) : ℚ) by
      push_cast; ring]
    exact rhe_intCast _
  rw [roundPos, hrhe]
  have hexp : (ratFlog2 (m : ℚ) - 52 : ℤ) = -(k : ℤ) := by omega
  rw [hexp, zpow_neg, zpow_natCast]
  push_cast
  rw [mul_assoc, mul_inv_cancel₀ (by positivity), mul_one]

theorem roundDouble_of_pos {q : ℚ} (h : 0 < q) : roundDouble q = roundPos q := by
  unfold roundDouble
  rw [if_pos h]

theorem roundDouble_natCast {m : ℕ} (h2 : m < 2 ^ 53) :
    roundDouble (m : ℚ) = m := by
  rcases Nat.eq_zero_or_pos m with h0 | h1
  · subst h0
    simp [roundDouble]
  · rw [roundDouble_of_pos (by exact_mod_cast h1), roundPos_natCast h1 h2]

/-- Claim C9 (amended): `bytesToKilobytes` is inconsistent across its two
input types on the range where the inputs are exactly representable as
doubles: for every non-negative integer n < 2^53 not divisible by 1000,
the bigint path returns exactly the truncating integer quotient
floor(n / 1000) while the number path returns the binary64 rounding of
the exact quotient n / 1000, and the two results differ.  (The original
universal claim fails for larger inputs, where both paths round to the
same double; see the counterexample at n = 2^70.) -/
theorem bytesToKilobytes_bigint_num_mismatch (n : ℕ) (hlt : n < 2 ^ 53)
    (h : ¬ 1000 ∣ n) :
    bytesToKilobytes (.bigint (n : ℤ)) = ((n / 1000 : ℕ) : ℚ) ∧
    bytesToKilobytes (.num (n : ℚ)) = roundDouble ((n : ℚ) / 1000) ∧
    bytesToKilobytes (.bigint (n : ℤ)) ≠ bytesToKilobytes (.num (n : ℚ)) := by
  have hn1 : 1 ≤ n := by omega
  have htdiv : Int.tdiv (n : ℤ) 1000 = ((n / 1000 : ℕ) : ℤ) := by
    rw [Int.tdiv_eq_ediv (Int.natCast_nonneg n) (by norm_num)]
    norm_cast
  have hkdiv : n / 1000 < 2 ^ 53 :=
    lt_of_le_of_lt (Nat.div_le_self n 1000) hlt
  have hbig : bytesToKilobytes (.bigint (n : ℤ)) = ((n / 1000 : ℕ) : ℚ) := by
    simp only [bytesToKilobytes, htdiv]
    rw [Int.cast_natCast]
    exact roundDouble_natCast hkdiv
  refine ⟨hbig, rfl, ?_⟩
  rw [hbig]
  simp only [bytesToKilobytes]
  have hq0 : (0 : ℚ) < (n : ℚ) / 1000 :=
    div_pos (by exact_mod_cast hn1) (by norm_num)
  rw [roundDouble_of_pos hq0]
  have hqlow : (2 : ℚ) ^ (-200 : ℤ) ≤ (n : ℚ) / 1000 := by
    have hstep : (1 : ℚ) / 1000 ≤ (n : ℚ) / 1000 := by
      gcongr
      exact_mod_cast hn1
    calc (2 : ℚ) ^ (-200 : ℤ) ≤ 1 / 1000 := by norm_num
      _ ≤ (n : ℚ) / 1000 := hstep
  obtain ⟨hlow, hhigh⟩ := ratFlog2_spec hqlow
  have hq44 : (n : ℚ) / 1000 < (2 : ℚ) ^ (44 : ℤ) := by
    rw [div_lt_iff₀ (by norm_num : (0 : ℚ) < 1000)]
    calc (n : ℚ) < ((2 ^ 53 : ℕ) : ℚ) := by exact_mod_cast hlt
      _ ≤ 2 ^ (44 : ℤ) * 1000 := by norm_num
  have he43 : ratFlog2 ((n : ℚ) / 1000) ≤ 43 := by
    by_contra hc
    push_neg at hc
    have hge : (2 : ℚ) ^ (44 : ℤ) ≤ 2 ^ ratFlog2 ((n : ℚ) / 1000) :=
      zpow_le_zpow_right₀ (by norm_num) (by omega)
    linarith
  have herr2 : |roundPos ((n : ℚ) / 1000) - (n : ℚ) / 1000| ≤
      (2 : ℚ) ^ (-10 : ℤ) :=
    le_trans (roundPos_err ((n : ℚ) / 1000))
      (zpow_le_zpow_right₀ (by norm_num) (by omega))
  have hfk : ((n / 1000 : ℕ) : ℚ) + 1 / 1000 ≤ (n : ℚ) / 1000 := by
    rw [le_div_iff₀ (by norm_num : (0 : ℚ) < 1000)]
    have hmod : 1000 * (n / 1000) + 1 ≤ n := by omega
    calc (((n / 1000 : ℕ) : ℚ) + 1 / 1000) * 1000 =
        1000 * ((n / 1000 : ℕ) : ℚ) + 1 := by ring
      _ ≤ (n : ℚ) := by exact_mod_cast hmod
  intro hcontra
  rw [← hcontra] at herr2
  have habs := abs_le.mp herr2
  have hsmall : (2 : ℚ) ^ (-10 : ℤ) < 1 / 1000 := by norm_num
  linarith [habs.1, habs.2]

/-- Witness for the amended claim C9 at the concrete input 1. -/
theorem bytesToKilobytes_bigint_num_mismatch_witness :
    ((1 : ℕ) < 2 ^ 53 ∧ ¬ 1000 ∣ (1 : ℕ)) ∧
    bytesToKilobytes (.bigint ((1 : ℕ) : ℤ)) ≠
      bytesToKilobytes (.num ((1 : ℕ) : ℚ)) := by
  have h1 : (1 : ℕ) < 2 ^ 53 := by norm_num
  have h2 : ¬ 1000 ∣ (1 : ℕ) := by omega
  exact ⟨⟨h1, h2⟩, (bytesToKilobytes_bigint_num_mismatch 1 h1 h2).2.2⟩

set_option maxRecDepth 100000 in
/-- Counterexample to claim C9 as stated: n = 2^70 is a non-negative
integer not divisible by 1000, yet both paths of `bytesToKilobytes`
return the very same double 1180591620717411328 (1.1805916207174113e18):
the 0.424 gap between the truncated and the exact quotient is far below
the spacing of doubles at that magnitude, so the claimed universal
mismatch fails there. -/
theorem bytesToKilobytes_mismatch_counterexample :
    ¬ 1000 ∣ (2 ^ 70 : ℕ) ∧
    bytesToKilobytes (.bigint ((2 ^ 70 : ℕ) : ℤ)) =
      bytesToKilobytes (.num ((2 ^ 70 : ℕ) : ℚ)) := by
  have hB : (2 ^ 70 : ℕ) = 1180591620717411303424 := by norm_num
  constructor
  · rw [hB]
    omega
  · have htd : Int.tdiv ((2 ^ 70 : ℕ) : ℤ) 1000 =
        ((1180591620717411303 : ℕ) : ℤ) := by decide
    have main1 : roundDouble ((1180591620717411303 : ℕ) : ℚ) =
        1180591620717411328 := by
      rw [roundDouble_of_pos (by norm_num)]
      have hfl1 : ⌊((1180591620717411303 : ℕ) : ℚ) * 2 ^ 200⌋ =
          ((1180591620717411303 * 2 ^ 200 : ℕ) : ℤ) := by
        rw [show ((1180591620717411303 : ℕ) : ℚ) * 2 ^ 200 =
            ((1180591620717411303 * 2 ^ 200 : ℕ) : ℚ) by push_cast; ring]
        exact Int.floor_natCast _
      have hlog1 : nlog2 (1180591620717411303 * 2 ^ 200) = 260 := by decide
      have he1 : ratFlog2 ((1180591620717411303 : ℕ) : ℚ) = 60 := by
        rw [ratFlog2_eval hfl1 hlog1]
        norm_num
      rw [roundPos, he1]
      have hx1 : ((1180591620717411303 : ℕ) : ℚ) * 2 ^ ((52 : ℤ) - 60) =
          (1180591620717411303 : ℚ) / 256 := by
        push_cast
        norm_num
      have hfl : ⌊(1180591620717411303 : ℚ) / 256⌋ = 4611686018427387 := by
        rw [Int.floor_eq_iff]
        constructor <;> norm_num
      rw [hx1, rhe_eq_succ_of hfl (by norm_num)]
      norm_num
    have main2 : roundDouble (((2 ^ 70 : ℕ) : ℚ) / 1000) =
        1180591620717411328 := by
      rw [roundDouble_of_pos (by positivity)]
      have hq2 : ((2 ^ 70 : ℕ) : ℚ) / 1000 =
          (1180591620717411303424 : ℚ) / 1000 := by
        norm_num
      rw [hq2]
      have hfl2 : ⌊((1180591620717411303424 : ℚ) / 1000) * 2 ^ 200⌋ =
          ((1897137590064188545819787018382342682267975428761855001222473056385648716020711 : ℕ) : ℤ) := by
        rw [Int.floor_eq_iff]
        constructor <;> (push_cast; norm_num)
      have hlog2 : nlog2
          1897137590064188545819787018382342682267975428761855001222473056385648716020711 =
          260 := by decide
      have he2 : ratFlog2 ((1180591620717411303424 : ℚ) / 1000) = 60 := by
        rw [ratFlog2_eval hfl2 hlog2]
        norm_num
      rw [roundPos, he2]
      have hx2 : ((1180591620717411303424 : ℚ) / 1000) * 2 ^ ((52 : ℤ) - 60) =
          (576460752303423488 : ℚ) / 125 := by
        norm_num
      have hfl : ⌊(576460752303423488 : ℚ) / 125⌋ = 4611686018427387 := by
        rw [Int.floor_eq_iff]
        constructor <;> norm_num
      rw [hx2, rhe_eq_succ_of hfl (by norm_num)]
      norm_num
    calc bytesToKilobytes (.bigint ((2 ^ 70 : ℕ) : ℤ))
        = roundDouble (((1180591620717411303 : ℕ) : ℤ) : ℚ) := by
          simp only [bytesToKilobytes, htd]
      _ = roundDouble ((1180591620717411303 : ℕ) : ℚ) := by norm_cast
      _ = 1180591620717411328 := main1
      _ = roundDouble (((2 ^ 70 : ℕ) : ℚ) / 1000) := main2.symm
      _ = bytesToKilobytes (.num ((2 ^ 70 : ℕ) : ℚ)) := rfl

/-- Unfolded accumulation of `formatDailyBlobStats` over an arbitrary
initial accumulator. -/
theorem formatDailyBlobStats_foldl (stats : List SingleDailyBlobStats)
    (acc : FormattedDailyBlobStats) :
    stats.foldl
      (fun acc s =>
        { days := acc.days ++ [getDateFromDateTime s.day]
          blobs := acc.blobs ++ [s.totalBlobs]
          uniqueBlobs := acc.uniqueBlobs ++ [s.totalUniqueBlobs]
          blobSizes := acc.blobSizes ++ [bytesToKilobytes s.totalBlobSize]
          avgBlobSizes := acc.avgBlobSizes ++ [s.avgBlobSize] }) acc =
      { days := acc.days ++ stats.map (fun s => getDateFromDateTime s.day)
        blobs := acc.blobs ++ stats.map (fun s => s.totalBlobs)
        uniqueBlobs := acc.uniqueBlobs ++
          stats.map (fun s => s.totalUniqueBlobs)
        blobSizes := acc.blobSizes ++
          stats.map (fun s => bytesToKilobytes s.totalBlobSize)
        avgBlobSizes := acc.avgBlobSizes ++
          stats.map (fun s => s.avgBlobSize) } := by
  induction stats generalizing acc with
  | nil => simp
  | cons x xs ih => simp [ih, List.append_assoc]

/-- Unfolded accumulation of `formatDailyBlockStats` over an arbitrary
initial accumulator. -/
theorem formatDailyBlockStats_foldl (stats : List SingleDailyBlockStats)
    (acc : FormattedDailyBlockStats) :
    stats.foldl
      (fun acc s =>
        { days := acc.days ++ [getDateFromDateTime s.day]
          blocks := acc.blocks ++ [s.totalBlocks] }) acc =
      { days := acc.days ++ stats.map (fun s => getDateFromDateTime s.day)
        blocks := acc.blocks ++ stats.map (fun s => s.totalBlocks) } := by
  induction stats generalizing acc with
  | nil => simp
  | cons x xs ih => simp [ih, List.append_assoc]

/-- Unfolded accumulation of `formatDailyTransactionStats` over an
arbitrary initial accumulator. -/
theorem formatDailyTransactionStats_foldl
    (stats : List SingleDailyTransactionStats)
    (acc : FormattedDailyTransactionStats) :
    stats.foldl
      (fun acc s =>
        { days := acc.days ++ [getDateFromDateTime s.day]
          transactions := acc.transactions ++ [s.totalTransactions]
          uniqueReceivers := acc.uniqueReceivers ++ [s.totalUniqueReceivers]
          uniqueSenders := acc.uniqueSenders ++ [s.totalUniqueSenders] }) acc =
      { days := acc.days ++ stats.map (fun s => getDateFromDateTime s.day)
        transactions := acc.transactions ++
          stats.map (fun s => s.totalTransactions)
        uniqueReceivers := acc.uniqueReceivers ++
          stats.map (fun s => s.totalUniqueReceivers)
        uniqueSenders := acc.uniqueSenders ++
          stats.map (fun s => s.totalUniqueSenders) } := by
  induction stats generalizing acc with
  | nil => simp
  | cons x xs ih => simp [ih, List.append_assoc]

/-- Claim C10: each of the three daily-stats formatters maps a list of
records to a record of component arrays, each equal to the input mapped
componentwise in order; in particular every component array has the
input's length, the i-th day is the date part of the i-th record's `day`,
and the i-th numeric entries are copied (or, for `totalBlobSize`,
converted by `bytesToKilobytes`) from the i-th record. -/
theorem formatDailyStats_componentwise (bs : List SingleDailyBlobStats)
    (ks : List SingleDailyBlockStats)
    (ts : List SingleDailyTransactionStats) :
    ((formatDailyBlobStats bs).days =
        bs.map (fun s => getDateFromDateTime s.day) ∧
      (formatDailyBlobStats bs).blobs = bs.map (fun s => s.totalBlobs) ∧
      (formatDailyBlobStats bs).uniqueBlobs =
        bs.map (fun s => s.totalUniqueBlobs) ∧
      (formatDailyBlobStats bs).blobSizes =
        bs.map (fun s => bytesToKilobytes s.totalBlobSize) ∧
      (formatDailyBlobStats bs).avgBlobSizes =
        bs.map (fun s => s.avgBlobSize)) ∧
    ((formatDailyBlockStats ks).days =
        ks.map (fun s => getDateFromDateTime s.day) ∧
      (formatDailyBlockStats ks).blocks =
        ks.map (fun s => s.totalBlocks)) ∧
    ((formatDailyTransactionStats ts).days =
        ts.map (fun s => getDateFromDateTime s.day) ∧
      (formatDailyTransactionStats ts).transactions =
        ts.map (fun s => s.totalTransactions) ∧
      (formatDailyTransactionStats ts).uniqueReceivers =
        ts.map (fun s => s.totalUniqueReceivers) ∧
      (formatDailyTransactionStats ts).uniqueSenders =
        ts.map (fun s => s.totalUniqueSenders)) := by
  refine ⟨?_, ?_, ?_⟩
  · simp [formatDailyBlobStats, formatDailyBlobStats_foldl]
  · simp [formatDailyBlockStats, formatDailyBlockStats_foldl]
  · simp [formatDailyTransactionStats, formatDailyTransactionStats_foldl]

end Blobscan
